import Mathlib

/-!
Shallow embedding of the trace-shape classification engine of
DryRunVisualised (`vizDetector.ts`), its trace schema (`schema.ts`) and its
trace ingestion (`traceParser.ts`), together with theorems settling the
specification claims about them.

JavaScript numbers are modelled as exact rationals (`Rat`); the classifier
only compares, counts and divides, so the rational model matches the source
for all realizable inputs.  JavaScript objects are modelled as
insertion-ordered association lists, JS `Map`/`Set` as insertion-ordered
lists with in-place update, and the stable `Array.prototype.sort` as a
stable insertion sort.
-/

namespace DryRun

/-- JSON-representable runtime value, as seen by the classifier
(`number | string | boolean | null | array | object`).  Tagged objects such
as `{__type__: "linked_list", ...}` are plain objects. -/
inductive Value where
  | num (q : Rat)
  | str (s : String)
  | bool (b : Bool)
  | null
  | arr (elems : List Value)
  | obj (entries : List (String × Value))

/-- Heap object of `schema.ts` (`HeapObjectSchema`): a `type` tag from a
fixed enum and an arbitrary `value` (absent allowed, since `z.any()`
accepts `undefined`). -/
structure HeapObject where
  type : String
  value : Option Value

/-- One execution snapshot (`TraceStepSchema` of `schema.ts`).  `line` is
`z.number()`, i.e. any JS number, hence `Rat` here. -/
structure TraceStep where
  line : Rat
  stack : List (String × Value)
  heap : List (String × HeapObject)
  stdout : String

/-- First-match association-list lookup: JS object property access /
`Map.get` on our ordered representation. -/
def assocLookup {α : Type} (k : String) : List (String × α) → Option α
  | [] => Option.none
  | p :: rest => if p.1 = k then some p.2 else assocLookup k rest

/-- `Map.set` semantics: update in place (keeping the insertion position)
when the key is present, append otherwise. -/
def assocSet {α : Type} (k : String) (v : α) : List (String × α) → List (String × α)
  | [] => [(k, v)]
  | p :: rest => if p.1 = k then (k, v) :: rest else p :: assocSet k v rest

/-- `Set.add` semantics for the ordered name set `allVarNames`. -/
def addName (k : String) (ns : List String) : List String :=
  if ns.contains k then ns else ns ++ [k]

/-- `AUX_NAMES` of `vizDetector.ts`: names treated as auxiliary data
structures, not primary data. -/
def AUX_NAMES : List String :=
  ["stack", "queue", "visited", "path", "result", "seen",
   "temp", "output", "ans", "res", "memo", "cache", "dp",
   "parent", "prev", "next", "current", "node"]

/-- JS `typeof` on a `Value` (arrays, objects and `null` are `"object"`). -/
def typeofVal : Value → String
  | Value.num _ => "number"
  | Value.str _ => "string"
  | Value.bool _ => "boolean"
  | Value.null => "object"
  | Value.arr _ => "object"
  | Value.obj _ => "object"

def isArrVal : Value → Bool
  | Value.arr _ => true
  | _ => false

def isNumVal : Value → Bool
  | Value.num _ => true
  | _ => false

/-- `isAdjacencyList` of `vizDetector.ts`: a non-array, non-null object
with at least 2 entries of which at least 60% have array values.  The
source compares `arrayCount / entries.length >= 0.6`; over a positive
entry count this is exactly `3 * entries.length ≤ 5 * arrayCount`, the
integer form used here (see `ratio_ge_three_fifths_iff`). -/
def isAdjacencyList : Value → Bool
  | Value.obj entries =>
    if entries.length < 2 then false
    else
      let arrayCount := entries.countP (fun p => isArrVal p.2)
      decide (3 * entries.length ≤ 5 * arrayCount)
  | _ => false

/-- A cell acceptable inside a 2D grid: number, boolean, or string of
length at most 2. -/
def gridCellOk : Value → Bool
  | Value.num _ => true
  | Value.bool _ => true
  | Value.str s => decide (s.length ≤ 2)
  | _ => false

/-- `new Set(row.map(cell => typeof cell)).size <= 1`: all cells of the row
share one `typeof`. -/
def sameTypeRow (cells : List Value) : Bool :=
  match cells with
  | [] => true
  | c :: rest => rest.all (fun x => typeofVal x == typeofVal c)

def rowIsArrOfLen (n : Nat) : Value → Bool
  | Value.arr cs => cs.length == n
  | _ => false

/-- `is2DGrid` of `vizDetector.ts`: rectangular 2D array, ≥2 rows, ≥2
columns, each row type-homogeneous with only simple scalar cells. -/
def is2DGrid : Value → Bool
  | Value.arr rows =>
    if rows.length < 2 then false
    else
      match rows with
      | [] => false
      | r0 :: _ =>
        match r0 with
        | Value.arr cells0 =>
          if cells0.length < 2 then false
          else if !(rows.all (rowIsArrOfLen cells0.length)) then false
          else rows.all (fun r =>
            match r with
            | Value.arr cs => sameTypeRow cs && cs.all gridCellOk
            | _ => true)
        | _ => false
  | _ => false

/-- `is1DNumericArray` of `vizDetector.ts`. -/
def is1DNumericArray : Value → Bool
  | Value.arr l => decide (l.length ≥ 2) && l.all isNumVal
  | _ => false

/-- `is1DAnyArray` of `vizDetector.ts`. -/
def is1DAnyArray : Value → Bool
  | Value.arr l => decide (l.length ≥ 1)
  | _ => false

/-- The aggregated per-variable sample: the observed value with the largest
array length, together with that length (`varSamples` entries). -/
structure Sample where
  value : Value
  maxLen : Nat

/-- `Array.isArray(val) ? val.length : 0`. -/
def arrLenOf : Value → Nat
  | Value.arr l => l.length
  | _ => 0

/-- Processing one stack entry of one step in the aggregation loop of
`detectVizType`: record the name and keep the sample with the largest
array length (strict improvement replaces). -/
def entryAgg (st : List String × List (String × Sample)) (p : String × Value) :
    List String × List (String × Sample) :=
  let names := addName p.1 st.1
  let len := arrLenOf p.2
  match assocLookup p.1 st.2 with
  | Option.none => (names, assocSet p.1 ⟨p.2, len⟩ st.2)
  | some ex =>
    if len > ex.maxLen then (names, assocSet p.1 ⟨p.2, len⟩ st.2)
    else (names, st.2)

/-- The aggregation prologue of `detectVizType`: fold over all steps and
all stack entries, producing (`allVarNames`, `varSamples`). -/
def aggregate (trace : List TraceStep) : List String × List (String × Sample) :=
  trace.foldl (fun st step => step.stack.foldl entryAgg st) ([], [])

/-- `findVariableByPredicate` inner loop over one step's stack. -/
def findEntryByPredicate (pred : Value → Bool) : List (String × Value) → Option String
  | [] => Option.none
  | p :: rest => if pred p.2 then some p.1 else findEntryByPredicate pred rest

/-- `findVariableByPredicate` of `vizDetector.ts`: first variable name, in
step order then entry order, whose value satisfies the predicate. -/
def findVariableByPredicate (trace : List TraceStep) (pred : Value → Bool) : Option String :=
  match trace with
  | [] => Option.none
  | step :: rest =>
    match findEntryByPredicate pred step.stack with
    | some n => some n
    | Option.none => findVariableByPredicate rest pred

/-- A best-array candidate (`{name, score}` in `findBestArray`). -/
structure Cand where
  name : String
  score : Int
deriving DecidableEq

/-- `name.startsWith("test")`. -/
def startsWithTest (n : String) : Bool :=
  n.data.take 4 == "test".data

/-- Candidate score: max observed length, minus 100 for auxiliary names,
minus 50 for test-ish names. -/
def candScore (name : String) (maxLen : Nat) : Int :=
  let base : Int := maxLen
  let s1 := if AUX_NAMES.contains name then base - 100 else base
  if startsWithTest name || name == "t" then s1 - 50 else s1

/-- Candidate list of `findBestArray`: samples whose value is a 1D numeric
array, in `varSamples` iteration order. -/
def arrayCandidates (varSamples : List (String × Sample)) : List Cand :=
  varSamples.foldl (fun cs p =>
    if is1DNumericArray p.2.value then cs ++ [⟨p.1, candScore p.1 p.2.maxLen⟩] else cs) []

/-- Candidate list of `findBestAnyArray`: any 1D array that is not a 2D
grid. -/
def anyArrayCandidates (varSamples : List (String × Sample)) : List Cand :=
  varSamples.foldl (fun cs p =>
    if is1DAnyArray p.2.value && !is2DGrid p.2.value then
      cs ++ [⟨p.1, candScore p.1 p.2.maxLen⟩]
    else cs) []

/-- Stable descending insertion: an element passes over strictly greater
scores and lands before the first score ≤ its own, so equal-score elements
keep their original relative order (JS `Array.prototype.sort` is stable). -/
def insertDesc (c : Cand) : List Cand → List Cand
  | [] => [c]
  | d :: ds => if d.score > c.score then d :: insertDesc c ds else c :: d :: ds

/-- Stable sort by descending score
(`candidates.sort((a, b) => b.score - a.score)`). -/
def sortCands : List Cand → List Cand
  | [] => []
  | c :: cs => insertDesc c (sortCands cs)

/-- `findBestArray` of `vizDetector.ts` (the `trace` argument of the source
is unused there and omitted here). -/
def findBestArray (varSamples : List (String × Sample)) : Option String :=
  match sortCands (arrayCandidates varSamples) with
  | [] => Option.none
  | c :: _ => some c.name

/-- `findBestAnyArray` of `vizDetector.ts`. -/
def findBestAnyArray (varSamples : List (String × Sample)) : Option String :=
  match sortCands (anyArrayCandidates varSamples) with
  | [] => Option.none
  | c :: _ => some c.name

/-- Number of steps in which the variable is defined (`seenTotal`). -/
def seenCount (trace : List TraceStep) (name : String) : Nat :=
  trace.countP (fun st => (assocLookup name st.stack).isSome)

/-- Number of steps in which the variable is an integer in `[0, arrLen)`
(`seenAsInt`): `typeof val === "number" && Number.isInteger(val) &&
val >= 0 && val < arrLen`.  For a rational with denominator 1 the numeric
comparisons are exactly the comparisons on its numerator. -/
def intInRangeCount (trace : List TraceStep) (name : String) (arrLen : Nat) : Nat :=
  trace.countP (fun st =>
    match assocLookup name st.stack with
    | some (Value.num q) => q.den == 1 && decide (0 ≤ q.num) && decide (q.num < (arrLen : Int))
    | _ => false)

/-- The per-name pointer test of `findPointerVars`: defined at least once
and an in-range integer in at least 50% of its defined appearances.  The
source compares `seenAsInt / seenTotal >= 0.5`; over a positive total this
is exactly `seenTotal ≤ 2 * seenAsInt` (see `ratio_ge_half_iff`). -/
def isPointerName (trace : List TraceStep) (arrLen : Nat) (name : String) : Bool :=
  let seenTotal := seenCount trace name
  let seenAsInt := intInRangeCount trace name arrLen
  decide (0 < seenTotal) && decide (seenTotal ≤ 2 * seenAsInt)

/-- The whole per-name condition of the `findPointerVars` loop: not an
auxiliary name (the `continue`), and passing the pointer test. -/
def pointerKeep (trace : List TraceStep) (arrLen : Nat) (name : String) : Bool :=
  !AUX_NAMES.contains name && isPointerName trace arrLen name

/-- `findPointerVars` of `vizDetector.ts`. -/
def findPointerVars (trace : List TraceStep) (allVarNames : List String) (arrLen : Nat) :
    List String :=
  if arrLen = 0 then []
  else
    allVarNames.foldl (fun ptrs name =>
      if pointerKeep trace arrLen name then ptrs ++ [name] else ptrs) []

/-- Whether some observed value of the variable is a number, string or
boolean (the scalar test inside `findScalarVars`). -/
def isScalarObserved (trace : List TraceStep) (name : String) : Bool :=
  trace.any (fun st =>
    match assocLookup name st.stack with
    | some (Value.num _) => true
    | some (Value.str _) => true
    | some (Value.bool _) => true
    | _ => false)

/-- The whole per-name condition of the `findScalarVars` loop: not
excluded, not an auxiliary name other than `result` (the two `continue`s),
and observed as a scalar. -/
def scalarKeep (trace : List TraceStep) (excludeVars : List String) (name : String) : Bool :=
  !excludeVars.contains name &&
    !(AUX_NAMES.contains name && name ≠ "result") &&
    isScalarObserved trace name

/-- `findScalarVars` of `vizDetector.ts`: displayable scalars in name
order, skipping excluded and auxiliary names (except `result`), truncated
to 5. -/
def findScalarVars (trace : List TraceStep) (allVarNames : List String)
    (excludeVars : List String) : List String :=
  let scalars := allVarNames.foldl (fun sc name =>
    if scalarKeep trace excludeVars name then sc ++ [name] else sc) []
  scalars.take 5

inductive VizType where
  | search
  | graph
  | grid
  | array
  | none
deriving DecidableEq

/-- `VizContext` of `vizDetector.ts`. -/
structure VizContext where
  type : VizType
  primaryVar : Option String
  auxVars : List String
  pointerVars : List String
  scalarVars : List String
deriving DecidableEq

def emptyCtx : VizContext :=
  ⟨VizType.none, Option.none, [], [], []⟩

def searchAuxNames : List String :=
  ["left", "right", "low", "high", "mid",
   "target", "water", "left_max", "right_max",
   "cut1", "cut2", "result", "current_sum"]

def graphAuxNames : List String :=
  ["visited", "queue", "stack", "current", "node", "path", "result", "distances"]

def linkedAuxNames : List String :=
  ["prev", "current", "next_node", "head", "reversed_head", "node", "temp"]

def gridAuxNames : List String :=
  ["row", "col", "r", "c", "i", "j", "queens", "path", "visited"]

/-- `{__type__: "linked_list"}` tagged-object test (stage 2b predicate). -/
def isLinkedListVal : Value → Bool
  | Value.obj entries =>
    match assocLookup "__type__" entries with
    | some (Value.str t) => t == "linked_list"
    | _ => false
  | _ => false

/-- `typeof s.value === "object" && s.value !== null && !Array.isArray`. -/
def isPlainObjectVal : Value → Bool
  | Value.obj _ => true
  | _ => false

def hasDicts (varSamples : List (String × Sample)) : Bool :=
  varSamples.any (fun p => isPlainObjectVal p.2.value)

/-- Stage 1 of `detectVizType` (search detection): fires when `left/right`
or `low/high` are both present and a best numeric array exists. -/
def searchStage (trace : List TraceStep) (allVarNames : List String)
    (varSamples : List (String × Sample)) : Option VizContext :=
  let hasLeftRight := allVarNames.contains "left" && allVarNames.contains "right"
  let hasLowHigh := allVarNames.contains "low" && allVarNames.contains "high"
  if hasLeftRight || hasLowHigh then
    match findBestArray varSamples with
    | some arrayVar =>
      some ⟨VizType.search, some arrayVar,
        searchAuxNames.filter (fun v => allVarNames.contains v),
        [], findScalarVars trace allVarNames [arrayVar]⟩
    | Option.none => Option.none
  else Option.none

/-- `varSamples.get(arrayVar)?.maxLen ?? 0` of stage 4. -/
def sampleLenD (varSamples : List (String × Sample)) (name : String) : Nat :=
  match assocLookup name varSamples with
  | some s => s.maxLen
  | Option.none => 0

/-- Stages 4–6 of `detectVizType`: best numeric array (with pointer and
scalar detection), then any array, then the dict-only `none` case, then
the empty `none` case. -/
def arrayStageOnward (trace : List TraceStep) (allVarNames : List String)
    (varSamples : List (String × Sample)) : VizContext :=
  match findBestArray varSamples with
  | some arrayVar =>
    let ptrs := findPointerVars trace allVarNames (sampleLenD varSamples arrayVar)
    ⟨VizType.array, some arrayVar, ptrs, ptrs,
      findScalarVars trace allVarNames [arrayVar]⟩
  | Option.none =>
    match findBestAnyArray varSamples with
    | some anyVar =>
      ⟨VizType.array, some anyVar, [], [],
        findScalarVars trace allVarNames [anyVar]⟩
    | Option.none =>
      if hasDicts varSamples then
        ⟨VizType.none, Option.none, [], [], findScalarVars trace allVarNames []⟩
      else emptyCtx

/-- Stage 3 of `detectVizType` (grid detection) and everything after it. -/
def gridStageOnward (trace : List TraceStep) (allVarNames : List String)
    (varSamples : List (String × Sample)) : VizContext :=
  match findVariableByPredicate trace is2DGrid with
  | some gridVar =>
    ⟨VizType.grid, some gridVar,
      gridAuxNames.filter (fun n => allVarNames.contains n), [], []⟩
  | Option.none => arrayStageOnward trace allVarNames varSamples

/-- Stages 2 and 2b of `detectVizType` (graph, then linked list) and
everything after them.  Note the source checks the generic adjacency-list
predicate BEFORE the tagged linked-list sub-case. -/
def graphStageOnward (trace : List TraceStep) (allVarNames : List String)
    (varSamples : List (String × Sample)) : VizContext :=
  match findVariableByPredicate trace isAdjacencyList with
  | some graphVar =>
    ⟨VizType.graph, some graphVar,
      graphAuxNames.filter (fun n => allVarNames.contains n), [], []⟩
  | Option.none =>
    match findVariableByPredicate trace isLinkedListVal with
    | some llVar =>
      ⟨VizType.array, some llVar,
        linkedAuxNames.filter (fun n => allVarNames.contains n),
        [], findScalarVars trace allVarNames [llVar]⟩
    | Option.none => gridStageOnward trace allVarNames varSamples

/-- `detectVizType` of `vizDetector.ts`: empty-trace early return,
aggregation, then the staged detection pipeline. -/
def detectVizType (trace : List TraceStep) : VizContext :=
  match trace with
  | [] => emptyCtx
  | _ :: _ =>
    let agg := aggregate trace
    match searchStage trace agg.1 agg.2 with
    | some ctx => ctx
    | Option.none => graphStageOnward trace agg.1 agg.2

/-!
## Trace ingestion (`traceParser.ts` + `schema.ts`)

`parseTrace` splits raw stdout into lines, keeps the lines carrying the
`__TRACE__` sentinel, strips the sentinel, parses the remainder with
`JSON.parse` and validates the result against `TraceStepSchema`; lines
failing any of these are silently dropped.  `JSON.parse` is a platform
builtin, modelled here by an executable JSON parser over `List Char`
(numbers as exact rationals, later duplicate object keys overwriting the
value at the first key's position, as in JS).
-/

def isWsChar (c : Char) : Bool :=
  c = ' ' || c = '\t' || c = '\n' || c = '\r'

def skipWs : List Char → List Char
  | [] => []
  | c :: cs => if isWsChar c then skipWs cs else c :: cs

def isDigitChar (c : Char) : Bool := '0' ≤ c && c ≤ '9'

def digitValue (c : Char) : Nat := c.toNat - 48

/-- Longest run of leading decimal digits, and the rest. -/
def takeDigits : List Char → (List Char × List Char)
  | [] => ([], [])
  | c :: cs =>
    if isDigitChar c then
      let (ds, rest) := takeDigits cs
      (c :: ds, rest)
    else ([], c :: cs)

def digitsToNat (ds : List Char) : Nat :=
  ds.foldl (fun a c => 10 * a + digitValue c) 0

def hexValue (c : Char) : Option Nat :=
  if '0' ≤ c && c ≤ '9' then some (c.toNat - 48)
  else if 'a' ≤ c && c ≤ 'f' then some (c.toNat - 87)
  else if 'A' ≤ c && c ≤ 'F' then some (c.toNat - 55)
  else Option.none

/-- Single-character JSON string escapes. -/
def escChar (e : Char) : Option Char :=
  if e = '"' then some '"'
  else if e = '\\' then some '\\'
  else if e = '/' then some '/'
  else if e = 'b' then some (Char.ofNat 8)
  else if e = 'f' then some (Char.ofNat 12)
  else if e = 'n' then some '\n'
  else if e = 'r' then some '\r'
  else if e = 't' then some '\t'
  else Option.none

/-- Body of a JSON string after the opening quote: content up to the
closing quote, and the remaining input. -/
def parseStringBody : Nat → List Char → Option (List Char × List Char)
  | 0, _ => Option.none
  | _ + 1, [] => Option.none
  | fuel + 1, c :: cs =>
    if c = '"' then some ([], cs)
    else if c = '\\' then
      match cs with
      | [] => Option.none
      | 'u' :: h1 :: h2 :: h3 :: h4 :: cs2 =>
        match hexValue h1, hexValue h2, hexValue h3, hexValue h4 with
        | some a, some b, some c2, some d =>
          (parseStringBody fuel cs2).map
            (fun p => (Char.ofNat (4096 * a + 256 * b + 16 * c2 + d) :: p.1, p.2))
        | _, _, _, _ => Option.none
      | e :: cs2 =>
        match escChar e with
        | some ch => (parseStringBody fuel cs2).map (fun p => (ch :: p.1, p.2))
        | Option.none => Option.none
    else if c.toNat < 32 then Option.none
    else (parseStringBody fuel cs).map (fun p => (c :: p.1, p.2))

def powTen (n : Nat) : Nat := 10 ^ n

/-- Exact rational value of a JSON number
`-? intPart . fracDigits e ± expDigits`. -/
def buildRat (neg : Bool) (intDs fracDs : List Char) (expNeg : Bool)
    (expDs : List Char) : Rat :=
  let mant : Nat := digitsToNat (intDs ++ fracDs)
  let num0 : Int := if neg then -(mant : Int) else (mant : Int)
  let e : Nat := digitsToNat expDs
  if expNeg then mkRat num0 (powTen (fracDs.length + e))
  else mkRat (num0 * (powTen e : Int)) (powTen fracDs.length)

/-- Optional exponent part of a JSON number, then assembly. -/
def parseExpPart (neg : Bool) (intDs fracDs : List Char) :
    List Char → Option (Rat × List Char)
  | c :: r =>
    if c = 'e' || c = 'E' then
      let (expNeg, r1) :=
        match r with
        | '+' :: rr => (false, rr)
        | '-' :: rr => (true, rr)
        | _ => (false, r)
      let (eds, r2) := takeDigits r1
      if eds.isEmpty then Option.none
      else some (buildRat neg intDs fracDs expNeg eds, r2)
    else some (buildRat neg intDs fracDs false [], c :: r)
  | [] => some (buildRat neg intDs fracDs false [], [])

/-- Optional fraction part, then exponent part. -/
def parseFracPart (neg : Bool) (intDs : List Char) :
    List Char → Option (Rat × List Char)
  | '.' :: r =>
    match takeDigits r with
    | ([], _) => Option.none
    | (ds, r2) => parseExpPart neg intDs ds r2
  | rest => parseExpPart neg intDs [] rest

/-- JSON number grammar: optional minus, `0` or a nonzero-led digit run,
optional fraction, optional exponent. -/
def parseNumber (s : List Char) : Option (Rat × List Char) :=
  let (neg, s1) :=
    match s with
    | '-' :: rest => (true, rest)
    | _ => (false, s)
  match s1 with
  | '0' :: rest => parseFracPart neg ['0'] rest
  | c :: _ =>
    if isDigitChar c then
      let (ds, rest) := takeDigits s1
      parseFracPart neg ds rest
    else Option.none
  | [] => Option.none

/-- JS object assignment for a parsed member: a repeated key keeps the
position of its first occurrence but takes the latest value. -/
def objInsert (entries : List (String × Value)) (k : String) (v : Value) :
    List (String × Value) :=
  assocSet k v entries

mutual

/-- Recursive-descent JSON value parser (fuel-indexed; `jsonParse` supplies
ample fuel). -/
def parseVal : Nat → List Char → Option (Value × List Char)
  | 0, _ => Option.none
  | fuel + 1, s =>
    match skipWs s with
    | [] => Option.none
    | c :: rest =>
      if c = '{' then
        match skipWs rest with
        | '}' :: r => some (Value.obj [], r)
        | r2 => parseMembers fuel r2 []
      else if c = '[' then
        match skipWs rest with
        | ']' :: r => some (Value.arr [], r)
        | r2 => parseElems fuel r2 []
      else if c = '"' then
        (parseStringBody (rest.length + 1) rest).map (fun p => (Value.str ⟨p.1⟩, p.2))
      else
        match c :: rest with
        | 't' :: 'r' :: 'u' :: 'e' :: r => some (Value.bool true, r)
        | 'f' :: 'a' :: 'l' :: 's' :: 'e' :: r => some (Value.bool false, r)
        | 'n' :: 'u' :: 'l' :: 'l' :: r => some (Value.null, r)
        | s2 => (parseNumber s2).map (fun p => (Value.num p.1, p.2))

/-- Comma-separated array elements up to `]`. -/
def parseElems : Nat → List Char → List Value → Option (Value × List Char)
  | 0, _, _ => Option.none
  | fuel + 1, s, acc =>
    match parseVal fuel s with
    | Option.none => Option.none
    | some (v, r) =>
      match skipWs r with
      | ',' :: r2 => parseElems fuel r2 (acc ++ [v])
      | ']' :: r2 => some (Value.arr (acc ++ [v]), r2)
      | _ => Option.none

/-- Comma-separated `"key": value` members up to `}`. -/
def parseMembers : Nat → List Char → List (String × Value) →
    Option (Value × List Char)
  | 0, _, _ => Option.none
  | fuel + 1, s, acc =>
    match skipWs s with
    | '"' :: r =>
      match parseStringBody (r.length + 1) r with
      | Option.none => Option.none
      | some (kcs, r2) =>
        match skipWs r2 with
        | ':' :: r3 =>
          match parseVal fuel r3 with
          | Option.none => Option.none
          | some (v, r4) =>
            let acc2 := objInsert acc ⟨kcs⟩ v
            match skipWs r4 with
            | ',' :: r5 => parseMembers fuel r5 acc2
            | '}' :: r5 => some (Value.obj acc2, r5)
            | _ => Option.none
        | _ => Option.none
    | _ => Option.none

end

/-- Model of `JSON.parse`: parse one value and require only whitespace
after it; `Option.none` models the thrown `SyntaxError`. -/
def jsonParse (s : List Char) : Option Value :=
  match parseVal (2 * s.length + 2) s with
  | some (v, rest) => if (skipWs rest).isEmpty then some v else Option.none
  | Option.none => Option.none

/-- The `type` enum of `HeapObjectSchema`. -/
def heapTypeNames : List String :=
  ["array", "object", "list_node", "tree_node", "other"]

/-- `HeapObjectSchema.safeParse`: an object whose `type` is one of the enum
strings; `value` is `z.any()` and may be absent. -/
def validateHeapObject : Value → Option HeapObject
  | Value.obj fields =>
    match assocLookup "type" fields with
    | some (Value.str t) =>
      if heapTypeNames.contains t then some ⟨t, assocLookup "value" fields⟩
      else Option.none
    | _ => Option.none
  | _ => Option.none

/-- `z.record(z.string(), HeapObjectSchema)`: every entry's value must
validate. -/
def validateHeapEntries : List (String × Value) → Option (List (String × HeapObject))
  | [] => some []
  | p :: rest =>
    match validateHeapObject p.2 with
    | some h => (validateHeapEntries rest).map (fun hs => (p.1, h) :: hs)
    | Option.none => Option.none

/-- `TraceStepSchema.safeParse` of `schema.ts`: an object with `line` a
number (`z.number()` — no positivity or integrality constraint), `stack`
a string-keyed object of arbitrary values, `heap` a string-keyed object of
heap objects, and `stdout` a string.  Unknown keys are stripped. -/
def validateStep (v : Value) : Option TraceStep :=
  match v with
  | Value.obj fields =>
    match assocLookup "line" fields with
    | some (Value.num q) =>
      match assocLookup "stack" fields with
      | some (Value.obj stackEntries) =>
        match assocLookup "heap" fields with
        | some (Value.obj heapEntries) =>
          match validateHeapEntries heapEntries with
          | some hs =>
            match assocLookup "stdout" fields with
            | some (Value.str out) => some ⟨q, stackEntries, hs, out⟩
            | _ => Option.none
          | Option.none => Option.none
        | _ => Option.none
      | _ => Option.none
    | _ => Option.none
  | _ => Option.none

def sentinelChars : List Char := "__TRACE__".data

/-- Whether the pattern occurs right at the start of the input. -/
def hasPref : List Char → List Char → Bool
  | [], _ => true
  | _ :: _, [] => false
  | p :: ps, c :: cs => p == c && hasPref ps cs

/-- `line.replace(pat, "")`: remove the first occurrence of the pattern. -/
def replaceFirst (pat : List Char) : List Char → List Char
  | [] => []
  | c :: cs =>
    if hasPref pat (c :: cs) then (c :: cs).drop pat.length
    else c :: replaceFirst pat cs

/-- `stdout.split('\n')` (JS semantics: `""` splits to `[""]`, a trailing
newline yields a trailing empty line). -/
def splitLines : List Char → List (List Char)
  | [] => [[]]
  | c :: cs =>
    if c = '\n' then [] :: splitLines cs
    else
      match splitLines cs with
      | [] => [[c]]
      | l :: ls => (c :: l) :: ls

/-- The per-line body of the `parseTrace` loop: keep the line only when it
carries the sentinel, its remainder parses as JSON and the result
validates as a `TraceStep`. -/
def parseLine (l : List Char) : Option TraceStep :=
  if hasPref sentinelChars l then
    match jsonParse (replaceFirst sentinelChars l) with
    | some j => validateStep j
    | Option.none => Option.none
  else Option.none

/-- The loop body of `parseTrace`: `steps.push(parsed.data)` on success,
nothing otherwise. -/
def pushStep (steps : List TraceStep) (l : List Char) : List TraceStep :=
  match parseLine l with
  | some s => steps ++ [s]
  | Option.none => steps

/-- `parseTrace` of `traceParser.ts`: split stdout into lines and push, in
order, each line that parses and validates. -/
def parseTrace (stdout : String) : List TraceStep :=
  (splitLines stdout.data).foldl pushStep []

/-- A well-formed sentinel-prefixed record: a line the ingestion contract
accepts. -/
def wellFormedLine (l : List Char) : Bool :=
  (parseLine l).isSome

/-!
## Specification-side definitions

Definitions phrasing the spec's vocabulary independently of the pipeline
internals, used to state the claims.
-/

/-- The length of the longest value of `name` observed anywhere in the
trace, counting a non-array value as length 0 (the spec's "length of the
longest observed value"). -/
def maxObservedLen (trace : List TraceStep) (name : String) : Nat :=
  trace.foldl (fun m st =>
    st.stack.foldl (fun m2 p => if p.1 = name then max m2 (arrLenOf p.2) else m2) m) 0

/-- The recorded max length of a name's aggregated sample, if any. -/
def maxLenAt (samples : List (String × Sample)) (name : String) : Option Nat :=
  (assocLookup name samples).map Sample.maxLen

/-- One observation of length `len` updating an optional running maximum. -/
def bumpLen (o : Option Nat) (len : Nat) : Option Nat :=
  match o with
  | Option.none => some len
  | some m => some (max m len)

/-- First candidate attaining the maximum score: a later candidate
replaces the current best only when its score is strictly greater.  This
is the tie-breaking rule the best-array selection actually implements
(spec-side definition for claim C3). -/
def firstMaxCand : List Cand → Option Cand
  | [] => Option.none
  | c :: cs =>
    match firstMaxCand cs with
    | Option.none => some c
    | some b => if b.score > c.score then some b else some c

/-!
## Concrete inputs for counterexamples and witnesses
-/

/-- A step at line 1 with no heap and empty stdout, with the given stack. -/
def mkStep (stk : List (String × Value)) : TraceStep := ⟨1, stk, [], ""⟩

/-- Counterexample trace for C1: `left`/`right` are present and `left`
holds the numeric array `[1, 2]` at the second step, but `left`'s
max-length aggregated sample is the first step's mixed array `[1, "x"]`
(same length, and only a strictly longer array replaces the sample), so no
best numeric array exists. -/
def traceC1 : List TraceStep :=
  [mkStep [("left", Value.arr [Value.num 1, Value.str "x"]), ("right", Value.num 0)],
   mkStep [("left", Value.arr [Value.num 1, Value.num 2]), ("right", Value.num 0)]]

/-- Counterexample trace for C2: `g` satisfies the adjacency-list
predicate and `ll` is a tagged linked-list object. -/
def traceC2 : List TraceStep :=
  [mkStep
    [("g", Value.obj [("0", Value.arr [Value.num 1]), ("1", Value.arr [Value.num 0])]),
     ("ll", Value.obj [("__type__", Value.str "linked_list"),
                       ("values", Value.arr [Value.num 1, Value.num 2])])]]

/-- Counterexample trace for C3: `a` and `b` are numeric arrays with equal
scores, `a` first in iteration order. -/
def traceC3 : List TraceStep :=
  [mkStep [("a", Value.arr [Value.num 1, Value.num 2]),
           ("b", Value.arr [Value.num 3, Value.num 4])]]

/-- The adjacency-list entries of the C4 witness variable. -/
def adjEntriesC4 : List (String × Value) :=
  [("0", Value.arr [Value.num 1]), ("1", Value.arr [Value.num 0])]

/-- Witness trace for C4: a lone adjacency-list variable. -/
def traceC4 : List TraceStep :=
  [mkStep [("graph", Value.obj adjEntriesC4)]]

/-- Witness trace for C5/C9/C10: `v` is a numeric array of length 2 once
and an in-range integer in the other two steps. -/
def traceC9 : List TraceStep :=
  [mkStep [("v", Value.arr [Value.num 5, Value.num 6])],
   mkStep [("v", Value.num 0)],
   mkStep [("v", Value.num 1)]]

/-- Witness trace for C1 (amended): `left`/`right` plus a numeric array. -/
def traceW1 : List TraceStep :=
  [mkStep [("left", Value.num 0), ("right", Value.num 1),
           ("nums", Value.arr [Value.num 3, Value.num 1])]]

/-- Witness trace for C2 (amended): a lone tagged linked-list variable. -/
def traceW2 : List TraceStep :=
  [mkStep [("ll", Value.obj [("__type__", Value.str "linked_list"),
                             ("values", Value.arr [Value.num 1, Value.num 2])])]]

/-- Witness trace for C6: a numeric array `nums` plus a scalar `k`. -/
def traceW6 : List TraceStep :=
  [mkStep [("nums", Value.arr [Value.num 4, Value.num 7]), ("k", Value.num 1)]]

/-- Counterexample blob for C7: a sentinel-prefixed record whose `line`
field is `0`, not a positive integer (braces written as escapes). -/
def blobC7 : String :=
  "__TRACE__\x7b\"line\":0,\"stack\":\x7b\x7d,\"heap\":\x7b\x7d,\"stdout\":\"\"\x7d"

/-- Concrete JSON object with a string `line` field, for the C7 witness:
it must fail validation. -/
def badLineJson : Value :=
  Value.obj [("line", Value.str "3"), ("stack", Value.obj []),
             ("heap", Value.obj []), ("stdout", Value.str "")]

/-- Concrete JSON object with a numeric `line` field, for the C7 witness. -/
def goodLineJson : Value :=
  Value.obj [("line", Value.num 0), ("stack", Value.obj []),
             ("heap", Value.obj []), ("stdout", Value.str "")]

/-- Concrete blob for exercising C8: two well-formed records interleaved
with four malformed or unrelated lines (braces written as escapes): an
unrelated line, a valid record, a record that is not JSON, another
unrelated line, a valid record with a heap object, and a record whose
`line` is a string (failing validation). -/
def blobC8 : String :=
  "junk\n__TRACE__\x7b\"line\":1,\"stack\":\x7b\"i\":3\x7d,\"heap\":\x7b\x7d,\"stdout\":\"hi\"\x7d\n__TRACE__\x7boops\nother\n__TRACE__\x7b\"line\":2,\"stack\":\x7b\"i\":\"x\"\x7d,\"heap\":\x7b\"a\":\x7b\"type\":\"array\",\"value\":[1,2]\x7d\x7d,\"stdout\":\"\"\x7d\n__TRACE__\x7b\"line\":\"3\",\"stack\":\x7b\x7d,\"heap\":\x7b\x7d,\"stdout\":\"\"\x7d"

/-! ## Bridging lemmas for the ratio thresholds -/

/-- Over a positive denominator, `a / b ≥ 3/5` (the source's `>= 0.6`) is
exactly the integer inequality `3 * b ≤ 5 * a` used by `isAdjacencyList`. -/
theorem ratio_ge_three_fifths_iff (a b : Nat) (hb : 0 < b) :
    (3 : Rat) / 5 ≤ (a : Rat) / (b : Rat) ↔ 3 * b ≤ 5 * a := by
  rw [div_le_div_iff₀ (by norm_num) (by exact_mod_cast hb)]
  have h : (3 : Rat) * (b : Rat) ≤ (a : Rat) * 5 ↔
      ((3 * b : Nat) : Rat) ≤ ((5 * a : Nat) : Rat) := by
    push_cast
    constructor <;> intro h <;> linarith
  rw [h, Nat.cast_le]

/-- Over a positive denominator, `a / b ≥ 1/2` (the source's `>= 0.5`) is
exactly the integer inequality `b ≤ 2 * a` used by `isPointerName`. -/
theorem ratio_ge_half_iff (a b : Nat) (hb : 0 < b) :
    (1 : Rat) / 2 ≤ (a : Rat) / (b : Rat) ↔ b ≤ 2 * a := by
  rw [div_le_div_iff₀ (by norm_num) (by exact_mod_cast hb)]
  have h : (1 : Rat) * (b : Rat) ≤ (a : Rat) * 2 ↔
      ((b : Nat) : Rat) ≤ ((2 * a : Nat) : Rat) := by
    push_cast
    constructor <;> intro h <;> linarith
  rw [h, Nat.cast_le]

/-! ## Structural lemmas about the pipeline helpers -/

theorem foldl_keepMap_eq {α β : Type} (f : α → Bool) (g : α → β) :
    ∀ (l : List α) (acc : List β),
      l.foldl (fun ys x => if f x then ys ++ [g x] else ys) acc =
        acc ++ (l.filter f).map g := by
  intro l
  induction l with
  | nil => intro acc; simp
  | cons x xs ih =>
    intro acc
    by_cases h : f x <;> simp [List.foldl_cons, List.filter_cons, h, ih]

theorem foldl_keep_eq {α : Type} (f : α → Bool) :
    ∀ (l : List α) (acc : List α),
      l.foldl (fun ys x => if f x then ys ++ [x] else ys) acc = acc ++ l.filter f := by
  intro l
  induction l with
  | nil => intro acc; simp
  | cons x xs ih =>
    intro acc
    by_cases h : f x <;> simp [List.foldl_cons, List.filter_cons, h, ih]

theorem length_filterMap_eq {α β : Type} (h : α → Option β) :
    ∀ l : List α, (l.filterMap h).length = (l.filter (fun x => (h x).isSome)).length := by
  intro l
  induction l with
  | nil => rfl
  | cons x xs ih =>
    cases hx : h x <;> simp [List.filterMap_cons, List.filter_cons, hx, ih]

theorem arrayCandidates_eq (varSamples : List (String × Sample)) :
    arrayCandidates varSamples =
      (varSamples.filter (fun p => is1DNumericArray p.2.value)).map
        (fun p => ⟨p.1, candScore p.1 p.2.maxLen⟩) := by
  simpa [arrayCandidates] using
    foldl_keepMap_eq (fun p : String × Sample => is1DNumericArray p.2.value)
      (fun p => (⟨p.1, candScore p.1 p.2.maxLen⟩ : Cand)) varSamples []

theorem findPointerVars_eq (trace : List TraceStep) (allVarNames : List String)
    (arrLen : Nat) :
    findPointerVars trace allVarNames arrLen =
      if arrLen = 0 then [] else allVarNames.filter (pointerKeep trace arrLen) := by
  unfold findPointerVars
  split
  · rfl
  · simpa using foldl_keep_eq (pointerKeep trace arrLen) allVarNames []

theorem findScalarVars_eq (trace : List TraceStep) (allVarNames : List String)
    (excludeVars : List String) :
    findScalarVars trace allVarNames excludeVars =
      (allVarNames.filter (scalarKeep trace excludeVars)).take 5 := by
  unfold findScalarVars
  simpa using congrArg (List.take 5)
    (foldl_keep_eq (scalarKeep trace excludeVars) allVarNames [])

theorem findScalarVars_length_le (trace : List TraceStep) (allVarNames : List String)
    (excludeVars : List String) :
    (findScalarVars trace allVarNames excludeVars).length ≤ 5 := by
  rw [findScalarVars_eq]
  exact List.length_take_le 5 _

theorem not_mem_findScalarVars_of_mem_exclude (trace : List TraceStep)
    (allVarNames excludeVars : List String) (x : String) (hx : x ∈ excludeVars) :
    x ∉ findScalarVars trace allVarNames excludeVars := by
  rw [findScalarVars_eq]
  intro hmem
  have h2 := List.take_subset 5 _ hmem
  have h3 := (List.mem_filter.mp h2).2
  simp only [scalarKeep, Bool.and_eq_true, Bool.not_eq_true'] at h3
  exact absurd (List.elem_eq_true_of_mem hx) (by simpa using h3.1.1)

theorem assocLookup_isSome_of_mem {α : Type} {l : List (String × α)} {p : String × α}
    (h : p ∈ l) : (assocLookup p.1 l).isSome := by
  induction l with
  | nil => cases h
  | cons a l ih =>
    rcases List.mem_cons.mp h with h1 | h1
    · subst h1; simp [assocLookup]
    · by_cases he : a.1 = p.1 <;> simp [assocLookup, he, ih h1]

theorem assocLookup_set_self {α : Type} (k : String) (v : α) :
    ∀ l : List (String × α), assocLookup k (assocSet k v l) = some v := by
  intro l
  induction l with
  | nil => simp [assocLookup, assocSet]
  | cons a l ih =>
    by_cases he : a.1 = k <;> simp [assocLookup, assocSet, he, ih]

theorem assocLookup_set_other {α : Type} (k k' : String) (v : α) (hne : k' ≠ k) :
    ∀ l : List (String × α), assocLookup k' (assocSet k v l) = assocLookup k' l := by
  have hkk : ¬ (k = k') := fun h => hne h.symm
  intro l
  induction l with
  | nil => simp [assocLookup, assocSet, hkk]
  | cons a l ih =>
    by_cases he : a.1 = k
    · have ha : ¬ (a.1 = k') := fun h2 => hkk (he ▸ h2)
      simp [assocSet, he, assocLookup, hkk, ha]
    · by_cases he2 : a.1 = k' <;> simp [assocSet, he, assocLookup, he2, ih, hne]

theorem insertDesc_ne_nil (c : Cand) (l : List Cand) : insertDesc c l ≠ [] := by
  cases l with
  | nil => simp [insertDesc]
  | cons d ds =>
    by_cases h : d.score > c.score <;> simp [insertDesc, h]

theorem sortCands_eq_nil_iff (l : List Cand) : sortCands l = [] ↔ l = [] := by
  cases l with
  | nil => simp [sortCands]
  | cons c cs => simp [sortCands, insertDesc_ne_nil]

theorem sortCands_headQ : ∀ l : List Cand, (sortCands l).head? = firstMaxCand l := by
  intro l
  induction l with
  | nil => rfl
  | cons c cs ih =>
    cases h : sortCands cs with
    | nil =>
      have hfm : firstMaxCand cs = Option.none := by rw [← ih, h]; rfl
      simp [sortCands, h, insertDesc, firstMaxCand, hfm]
    | cons d ds =>
      have hfm : firstMaxCand cs = some d := by rw [← ih, h]; rfl
      by_cases hs : d.score > c.score <;>
        simp [sortCands, h, insertDesc, firstMaxCand, hfm, hs]

theorem firstMaxCand_mem : ∀ {l : List Cand} {c : Cand}, firstMaxCand l = some c → c ∈ l := by
  intro l
  induction l with
  | nil => intro c h; cases h
  | cons a l ih =>
    intro c h
    cases hfm : firstMaxCand l with
    | none =>
      rw [firstMaxCand, hfm] at h
      cases h
      exact List.mem_cons_self _ _
    | some b =>
      rw [firstMaxCand, hfm] at h
      by_cases hs : b.score > a.score
      · simp only [hs, if_pos] at h
        cases h
        exact List.mem_cons_of_mem _ (ih hfm)
      · simp only [hs, if_neg, if_false] at h
        cases h
        exact List.mem_cons_self _ _

theorem findBestArray_eq_firstMax (varSamples : List (String × Sample)) :
    findBestArray varSamples =
      (firstMaxCand (arrayCandidates varSamples)).map Cand.name := by
  unfold findBestArray
  have h := sortCands_headQ (arrayCandidates varSamples)
  cases hs : sortCands (arrayCandidates varSamples) with
  | nil => rw [hs] at h; rw [← h]; rfl
  | cons c cs => rw [hs] at h; rw [← h]; rfl

theorem findBestArray_lookup_isSome (varSamples : List (String × Sample)) (a : String)
    (h : findBestArray varSamples = some a) : (assocLookup a varSamples).isSome := by
  rw [findBestArray_eq_firstMax] at h
  cases hfm : firstMaxCand (arrayCandidates varSamples) with
  | none => rw [hfm] at h; cases h
  | some c =>
    rw [hfm] at h
    have hc := firstMaxCand_mem hfm
    rw [arrayCandidates_eq] at hc
    rcases List.mem_map.mp hc with ⟨p, hp, hpc⟩
    have hp2 : p ∈ varSamples := (List.mem_filter.mp hp).1
    have hname : a = p.1 := by
      injection h with h2
      rw [← h2, ← hpc]
    rw [hname]
    exact assocLookup_isSome_of_mem hp2

/-! ## The aggregated sample length is the longest observed length -/

theorem maxLenAt_entryAgg (st : List String × List (String × Sample)) (p : String × Value)
    (name : String) :
    maxLenAt (entryAgg st p).2 name =
      if p.1 = name then bumpLen (maxLenAt st.2 name) (arrLenOf p.2)
      else maxLenAt st.2 name := by
  by_cases hpn : p.1 = name
  · subst hpn
    unfold entryAgg
    cases hl : assocLookup p.1 st.2 with
    | none => simp [maxLenAt, assocLookup_set_self, hl, bumpLen]
    | some ex =>
      by_cases hlen : arrLenOf p.2 > ex.maxLen
      · simp [hlen, maxLenAt, assocLookup_set_self, hl, bumpLen,
          Nat.max_eq_right (le_of_lt hlen)]
      · simp [hlen, maxLenAt, hl, bumpLen, Nat.max_eq_left (Nat.le_of_not_lt hlen)]
  · have hne : name ≠ p.1 := fun h2 => hpn h2.symm
    unfold entryAgg
    cases hl : assocLookup p.1 st.2 with
    | none => simp [hpn, maxLenAt, assocLookup_set_other _ _ _ hne]
    | some ex =>
      by_cases hlen : arrLenOf p.2 > ex.maxLen
      · simp [hpn, hlen, maxLenAt, assocLookup_set_other _ _ _ hne]
      · simp [hpn, hlen, maxLenAt]

theorem maxLenAt_stackFold (name : String) :
    ∀ (stk : List (String × Value)) (st : List String × List (String × Sample)),
      maxLenAt (stk.foldl entryAgg st).2 name =
        stk.foldl (fun o p => if p.1 = name then bumpLen o (arrLenOf p.2) else o)
          (maxLenAt st.2 name) := by
  intro stk
  induction stk with
  | nil => intro st; rfl
  | cons p stk ih =>
    intro st
    rw [List.foldl_cons, List.foldl_cons, ih, maxLenAt_entryAgg]

theorem maxLenAt_aggregate (name : String) :
    ∀ (trace : List TraceStep) (st : List String × List (String × Sample)),
      maxLenAt ((trace.foldl (fun s step => step.stack.foldl entryAgg s) st)).2 name =
        trace.foldl
          (fun o step => step.stack.foldl
            (fun o p => if p.1 = name then bumpLen o (arrLenOf p.2) else o) o)
          (maxLenAt st.2 name) := by
  intro trace
  induction trace with
  | nil => intro st; rfl
  | cons step trace ih =>
    intro st
    rw [List.foldl_cons, List.foldl_cons, ih, maxLenAt_stackFold]

theorem bumpLen_getD (o : Option Nat) (len : Nat) :
    (bumpLen o len).getD 0 = max (o.getD 0) len := by
  cases o <;> simp [bumpLen]

theorem optFold_getD_stack (name : String) :
    ∀ (stk : List (String × Value)) (o : Option Nat),
      (stk.foldl (fun o p => if p.1 = name then bumpLen o (arrLenOf p.2) else o) o).getD 0 =
        stk.foldl (fun m p => if p.1 = name then max m (arrLenOf p.2) else m) (o.getD 0) := by
  intro stk
  induction stk with
  | nil => intro o; rfl
  | cons p stk ih =>
    intro o
    by_cases hpn : p.1 = name
    · rw [List.foldl_cons, List.foldl_cons]
      simp only [hpn, if_true, eq_self_iff_true]
      rw [ih, bumpLen_getD]
    · simp [List.foldl_cons, hpn, ih]

theorem optFold_getD_trace (name : String) :
    ∀ (trace : List TraceStep) (o : Option Nat),
      (trace.foldl
        (fun o step => step.stack.foldl
          (fun o p => if p.1 = name then bumpLen o (arrLenOf p.2) else o) o) o).getD 0 =
        trace.foldl
          (fun m step => step.stack.foldl
            (fun m p => if p.1 = name then max m (arrLenOf p.2) else m) m) (o.getD 0) := by
  intro trace
  induction trace with
  | nil => intro o; rfl
  | cons step trace ih =>
    intro o
    rw [List.foldl_cons, List.foldl_cons, ih, optFold_getD_stack]

theorem sample_maxLen_eq_maxObservedLen (trace : List TraceStep) (name : String)
    (s : Sample) (h : assocLookup name (aggregate trace).2 = some s) :
    s.maxLen = maxObservedLen trace name := by
  have h1 : maxLenAt (aggregate trace).2 name =
      trace.foldl
        (fun o step => step.stack.foldl
          (fun o p => if p.1 = name then bumpLen o (arrLenOf p.2) else o) o)
        Option.none :=
    maxLenAt_aggregate name trace ([], [])
  have h2 : maxLenAt (aggregate trace).2 name = some s.maxLen := by
    simp [maxLenAt, h]
  have h3 := optFold_getD_trace name trace Option.none
  rw [h1] at h2
  calc s.maxLen = (Option.some s.maxLen).getD 0 := rfl
    _ = maxObservedLen trace name := by rw [← h2, h3]; rfl

theorem sampleLenD_eq_maxObservedLen (trace : List TraceStep) (name : String)
    (h : (assocLookup name (aggregate trace).2).isSome) :
    sampleLenD (aggregate trace).2 name = maxObservedLen trace name := by
  cases hs : assocLookup name (aggregate trace).2 with
  | none => rw [hs] at h; cases h
  | some s =>
    unfold sampleLenD
    rw [hs]
    exact sample_maxLen_eq_maxObservedLen trace name s hs

/-! ## Stage-level case analysis of the detection pipeline -/

theorem mem_findPointerVars (trace : List TraceStep) (allVarNames : List String)
    (arrLen : Nat) (x : String) (h : x ∈ findPointerVars trace allVarNames arrLen) :
    arrLen ≠ 0 ∧ AUX_NAMES.contains x = false ∧
      0 < seenCount trace x ∧ seenCount trace x ≤ 2 * intInRangeCount trace x arrLen := by
  rw [findPointerVars_eq] at h
  by_cases h0 : arrLen = 0
  · simp [h0] at h
  · rw [if_neg h0] at h
    have hk := (List.mem_filter.mp h).2
    simp only [pointerKeep, isPointerName, Bool.and_eq_true, Bool.not_eq_true',
      decide_eq_true_eq] at hk
    exact ⟨h0, hk.1, hk.2.1, hk.2.2⟩

theorem mem_of_contains {l : List String} {x : String} (h : l.contains x = true) : x ∈ l :=
  List.mem_of_elem_eq_true h

theorem contains_of_mem {l : List String} {x : String} (h : x ∈ l) : l.contains x = true :=
  List.elem_eq_true_of_mem h

theorem firstMaxCand_isSome : ∀ {l : List Cand}, l ≠ [] → ∃ c, firstMaxCand l = some c := by
  intro l h
  cases l with
  | nil => exact absurd rfl h
  | cons a l =>
    rw [firstMaxCand]
    cases firstMaxCand l with
    | none => exact ⟨a, rfl⟩
    | some b =>
      by_cases hs : b.score > a.score
      · exact ⟨b, by simp [hs]⟩
      · exact ⟨a, by simp [hs]⟩

theorem firstMaxCand_is_max : ∀ {l : List Cand} {c : Cand}, firstMaxCand l = some c →
    ∀ d ∈ l, d.score ≤ c.score := by
  intro l
  induction l with
  | nil => intro c h d hd; cases hd
  | cons a l ih =>
    intro c h d hd
    cases hfm : firstMaxCand l with
    | none =>
      cases l with
      | cons b m =>
        rcases firstMaxCand_isSome (l := b :: m) (by simp) with ⟨c2, hc2⟩
        rw [hfm] at hc2
        exact Option.noConfusion hc2
      | nil =>
        simp only [firstMaxCand] at h
        injection h with h2
        subst h2
        rcases List.mem_cons.mp hd with h1 | h1
        · subst h1; exact le_refl _
        · cases h1
    | some b =>
      simp only [firstMaxCand, hfm] at h
      by_cases hs : b.score > a.score
      · rw [if_pos hs] at h
        injection h with h2
        subst h2
        rcases List.mem_cons.mp hd with h1 | h1
        · subst h1; exact le_of_lt hs
        · exact ih hfm d h1
      · rw [if_neg hs] at h
        injection h with h2
        subst h2
        rcases List.mem_cons.mp hd with h1 | h1
        · subst h1; exact le_refl _
        · exact le_trans (ih hfm d h1) (not_lt.mp hs)

theorem findEntryByPredicate_isSome (pred : Value → Bool) (stk : List (String × Value))
    (h : ∃ p ∈ stk, pred p.2 = true) : ∃ n, findEntryByPredicate pred stk = some n := by
  induction stk with
  | nil => rcases h with ⟨p, hp, -⟩; cases hp
  | cons a stk ih =>
    rcases h with ⟨p, hp, hpred⟩
    by_cases ha : pred a.2
    · exact ⟨a.1, by simp [findEntryByPredicate, ha]⟩
    · rcases List.mem_cons.mp hp with h1 | h1
      · subst h1; exact absurd hpred (by simp [ha])
      · rcases ih ⟨p, h1, hpred⟩ with ⟨n, hn⟩
        exact ⟨n, by simp [findEntryByPredicate, ha, hn]⟩

theorem findVariableByPredicate_isSome (trace : List TraceStep) (pred : Value → Bool)
    (h : ∃ st ∈ trace, ∃ p ∈ st.stack, pred p.2 = true) :
    ∃ g, findVariableByPredicate trace pred = some g := by
  induction trace with
  | nil => rcases h with ⟨st, hst, -⟩; cases hst
  | cons s rest ih =>
    rcases h with ⟨st, hst, hp⟩
    cases hfe : findEntryByPredicate pred s.stack with
    | some n => exact ⟨n, by simp [findVariableByPredicate, hfe]⟩
    | none =>
      rcases List.mem_cons.mp hst with h1 | h1
      · subst h1
        rcases findEntryByPredicate_isSome pred st.stack hp with ⟨n, hn⟩
        rw [hn] at hfe
        exact Option.noConfusion hfe
      · rcases ih ⟨st, h1, hp⟩ with ⟨g, hg⟩
        exact ⟨g, by simp [findVariableByPredicate, hfe, hg]⟩

theorem searchStage_eq_none_of (trace : List TraceStep) (names : List String)
    (samples : List (String × Sample))
    (h : ¬ ((("left" ∈ names ∧ "right" ∈ names) ∨ ("low" ∈ names ∧ "high" ∈ names)) ∧
      (findBestArray samples).isSome = true)) :
    searchStage trace names samples = Option.none := by
  cases hfb : findBestArray samples with
  | none => simp only [searchStage, hfb, ite_self]
  | some a =>
    cases hb : (names.contains "left" && names.contains "right" ||
        names.contains "low" && names.contains "high") with
    | false =>
      simp only [searchStage, hfb, hb, Bool.false_eq_true, if_false]
    | true =>
      exfalso
      apply h
      refine ⟨?_, by rw [hfb]; rfl⟩
      have hb2 := hb
      simp only [Bool.or_eq_true, Bool.and_eq_true] at hb2
      rcases hb2 with h1 | h1
      · exact Or.inl ⟨mem_of_contains h1.1, mem_of_contains h1.2⟩
      · exact Or.inr ⟨mem_of_contains h1.1, mem_of_contains h1.2⟩

theorem searchStage_inv (trace : List TraceStep) (names : List String)
    (samples : List (String × Sample)) (ctx : VizContext)
    (h : searchStage trace names samples = some ctx) :
    ∃ a, findBestArray samples = some a ∧
      ctx = ⟨VizType.search, some a, searchAuxNames.filter (fun v => names.contains v), [],
        findScalarVars trace names [a]⟩ := by
  cases hfb : findBestArray samples with
  | none =>
    simp only [searchStage, hfb, ite_self] at h
    exact Option.noConfusion h
  | some a =>
    simp only [searchStage, hfb] at h
    split at h
    · injection h with h2
      exact ⟨a, rfl, h2.symm⟩
    · exact Option.noConfusion h

theorem detectVizType_cases (trace : List TraceStep) :
    (trace = [] ∧ detectVizType trace = emptyCtx) ∨
    (∃ ctx, searchStage trace (aggregate trace).1 (aggregate trace).2 = some ctx ∧
      detectVizType trace = ctx) ∨
    (searchStage trace (aggregate trace).1 (aggregate trace).2 = Option.none ∧
      detectVizType trace = graphStageOnward trace (aggregate trace).1 (aggregate trace).2) := by
  cases trace with
  | nil => exact Or.inl ⟨rfl, rfl⟩
  | cons s rest =>
    cases hss : searchStage (s :: rest) (aggregate (s :: rest)).1 (aggregate (s :: rest)).2 with
    | some ctx =>
      exact Or.inr (Or.inl ⟨ctx, rfl, by simp only [detectVizType, hss]⟩)
    | none =>
      exact Or.inr (Or.inr ⟨rfl, by simp only [detectVizType, hss]⟩)

theorem graphStageOnward_cases (trace : List TraceStep) (names : List String)
    (samples : List (String × Sample)) :
    (∃ g, findVariableByPredicate trace isAdjacencyList = some g ∧
      graphStageOnward trace names samples =
        ⟨VizType.graph, some g, graphAuxNames.filter (fun n => names.contains n), [], []⟩) ∨
    (∃ v, findVariableByPredicate trace isAdjacencyList = Option.none ∧
      findVariableByPredicate trace isLinkedListVal = some v ∧
      graphStageOnward trace names samples =
        ⟨VizType.array, some v, linkedAuxNames.filter (fun n => names.contains n), [],
          findScalarVars trace names [v]⟩) ∨
    (∃ g, findVariableByPredicate trace is2DGrid = some g ∧
      graphStageOnward trace names samples =
        ⟨VizType.grid, some g, gridAuxNames.filter (fun n => names.contains n), [], []⟩) ∨
    (∃ a, findBestArray samples = some a ∧
      graphStageOnward trace names samples =
        ⟨VizType.array, some a, findPointerVars trace names (sampleLenD samples a),
          findPointerVars trace names (sampleLenD samples a),
          findScalarVars trace names [a]⟩) ∨
    (∃ a, findBestAnyArray samples = some a ∧
      graphStageOnward trace names samples =
        ⟨VizType.array, some a, [], [], findScalarVars trace names [a]⟩) ∨
    (graphStageOnward trace names samples =
      ⟨VizType.none, Option.none, [], [], findScalarVars trace names []⟩) ∨
    (graphStageOnward trace names samples = emptyCtx) := by
  cases h1 : findVariableByPredicate trace isAdjacencyList with
  | some g => exact Or.inl ⟨g, rfl, by simp only [graphStageOnward, h1]⟩
  | none =>
    cases h2 : findVariableByPredicate trace isLinkedListVal with
    | some v =>
      exact Or.inr (Or.inl ⟨v, rfl, rfl, by simp only [graphStageOnward, h1, h2]⟩)
    | none =>
      cases h3 : findVariableByPredicate trace is2DGrid with
      | some g =>
        exact Or.inr (Or.inr (Or.inl ⟨g, rfl,
          by simp only [graphStageOnward, gridStageOnward, h1, h2, h3]⟩))
      | none =>
        cases h4 : findBestArray samples with
        | some a =>
          exact Or.inr (Or.inr (Or.inr (Or.inl ⟨a, rfl,
            by simp only [graphStageOnward, gridStageOnward, arrayStageOnward, h1, h2, h3, h4]⟩)))
        | none =>
          cases h5 : findBestAnyArray samples with
          | some a =>
            exact Or.inr (Or.inr (Or.inr (Or.inr (Or.inl ⟨a, rfl,
              by simp only [graphStageOnward, gridStageOnward, arrayStageOnward,
                h1, h2, h3, h4, h5]⟩))))
          | none =>
            by_cases h6 : hasDicts samples = true
            · refine Or.inr (Or.inr (Or.inr (Or.inr (Or.inr (Or.inl ?_)))))
              simp only [graphStageOnward, gridStageOnward, arrayStageOnward,
                h1, h2, h3, h4, h5]
              rw [if_pos h6]
            · refine Or.inr (Or.inr (Or.inr (Or.inr (Or.inr (Or.inr ?_)))))
              simp only [graphStageOnward, gridStageOnward, arrayStageOnward,
                h1, h2, h3, h4, h5]
              rw [if_neg h6]

/-- Concrete ingestion run: `blobC8` has six lines of which exactly two
are well-formed sentinel-prefixed records; ingestion yields exactly those
two steps, in order. -/
theorem blobC8_ingestion :
    (splitLines blobC8.data).length = 6 ∧
    ((splitLines blobC8.data).filter wellFormedLine).length = 2 ∧
    (parseTrace blobC8).map TraceStep.line = [1, 2] := by decide

/-- A record whose `line` field is a string fails validation and is
dropped. -/
theorem badLineJson_fails_validation : validateStep badLineJson = Option.none := rfl

/-! ## Claims -/

/-- C1, counterexample: in `traceC1` the aggregated name set contains both
`left` and `right`, and a variable holds a numeric sequence of length ≥ 2
at some step, yet the detected type is `array`, not `search` — the
detection keys on the max-length aggregated sample, which here is a mixed
array of the same length. -/
theorem c1_counterexample :
    ("left" ∈ (aggregate traceC1).1 ∧ "right" ∈ (aggregate traceC1).1) ∧
    (∃ st ∈ traceC1, ∃ p ∈ st.stack, is1DNumericArray p.2 = true) ∧
    (detectVizType traceC1).type = VizType.array ∧
    (detectVizType traceC1).type ≠ VizType.search := by decide

/-- C1 (amended): if the aggregated variable-name set contains both `left`
and `right`, and some variable's max-length aggregated sample is a numeric
sequence of length ≥ 2 (so that the best-numeric-array selection
succeeds), then `detectVizType` returns a context with `type = search`. -/
theorem c1_search_of_pair_and_best_numeric_sample (trace : List TraceStep)
    (hL : "left" ∈ (aggregate trace).1) (hR : "right" ∈ (aggregate trace).1)
    (hcand : ∃ p ∈ (aggregate trace).2, is1DNumericArray p.2.value = true) :
    (detectVizType trace).type = VizType.search := by
  have htr : trace ≠ [] := by
    intro he; subst he
    rcases hcand with ⟨p, hp, -⟩
    simp [aggregate] at hp
  have hfb : ∃ a, findBestArray (aggregate trace).2 = some a := by
    rcases hcand with ⟨p, hp, hnum⟩
    have hmem : (⟨p.1, candScore p.1 p.2.maxLen⟩ : Cand) ∈
        arrayCandidates (aggregate trace).2 := by
      rw [arrayCandidates_eq]
      exact List.mem_map_of_mem _ (List.mem_filter.mpr ⟨hp, hnum⟩)
    have hne : arrayCandidates (aggregate trace).2 ≠ [] := by
      intro he; rw [he] at hmem; cases hmem
    rcases firstMaxCand_isSome hne with ⟨c, hc⟩
    exact ⟨c.name, by rw [findBestArray_eq_firstMax, hc]; rfl⟩
  rcases hfb with ⟨a, ha⟩
  rcases detectVizType_cases trace with ⟨he, -⟩ | ⟨ctx, hss, hctx⟩ | ⟨hss, -⟩
  · exact absurd he htr
  · rcases searchStage_inv _ _ _ _ hss with ⟨b, -, hctxeq⟩
    rw [hctx, hctxeq]
  · exfalso
    have hcond : ((aggregate trace).1.contains "left" &&
        (aggregate trace).1.contains "right" ||
        (aggregate trace).1.contains "low" && (aggregate trace).1.contains "high") = true := by
      rw [contains_of_mem hL, contains_of_mem hR]
      rfl
    simp only [searchStage, hcond, ha, if_true] at hss
    exact Option.noConfusion hss

/-- C1 witness: a concrete trace with `left`, `right` and a numeric array
`nums`, classified as `search`. -/
theorem c1_witness : (detectVizType traceW1).type = VizType.search :=
  c1_search_of_pair_and_best_numeric_sample traceW1 (by decide) (by decide) (by decide)

/-- C2, counterexample: in `traceC2` the variable `ll` is a tagged
linked-list object, but the variable `g` satisfies the adjacency-list
predicate, and the source checks generic adjacency-list detection FIRST:
the result is `type = graph` with `primaryVar = "g"`, not `type = array`
with `primaryVar = "ll"`. -/
theorem c2_counterexample :
    (∃ st ∈ traceC2, ∃ p ∈ st.stack, p.1 = "ll" ∧ isLinkedListVal p.2 = true) ∧
    (∃ st ∈ traceC2, ∃ p ∈ st.stack, isAdjacencyList p.2 = true) ∧
    (detectVizType traceC2).type = VizType.graph ∧
    (detectVizType traceC2).primaryVar = some "g" ∧
    ¬ ((detectVizType traceC2).type = VizType.array ∧
        (detectVizType traceC2).primaryVar = some "ll") := by decide

/-- C2 (amended): generic adjacency-list detection is checked BEFORE the
tagged linked-list sub-case.  When the search stage does not fire and no
variable satisfies the adjacency-list predicate, a variable holding a
tagged "linked_list" object yields `type = array` with that variable as
`primaryVar`. -/
theorem c2_linked_list_after_adjacency (trace : List TraceStep) (v : String)
    (hs : searchStage trace (aggregate trace).1 (aggregate trace).2 = Option.none)
    (hadj : findVariableByPredicate trace isAdjacencyList = Option.none)
    (hll : findVariableByPredicate trace isLinkedListVal = some v) :
    (detectVizType trace).type = VizType.array ∧
    (detectVizType trace).primaryVar = some v := by
  have htr : trace ≠ [] := by
    intro he; subst he
    simp [findVariableByPredicate] at hll
  rcases detectVizType_cases trace with ⟨he, -⟩ | ⟨ctx, hss, -⟩ | ⟨-, hctx⟩
  · exact absurd he htr
  · rw [hs] at hss; exact Option.noConfusion hss
  · rw [hctx]
    constructor
    · simp only [graphStageOnward, hadj, hll]
    · simp only [graphStageOnward, hadj, hll]

/-- C2 witness: a lone tagged linked-list variable is classified as
`array` with itself as primary. -/
theorem c2_witness :
    (detectVizType traceW2).type = VizType.array ∧
    (detectVizType traceW2).primaryVar = some "ll" :=
  c2_linked_list_after_adjacency traceW2 "ll" (by decide) (by decide) (by decide)

/-- C3, counterexample: in `traceC3` the candidates `a` and `b` receive
equal scores, with `a` first in the deterministic name-iteration order;
the selection returns `a`, the one seen FIRST, not `b`, the one seen
last. -/
theorem c3_counterexample :
    (arrayCandidates (aggregate traceC3).2).map Cand.name = ["a", "b"] ∧
    (arrayCandidates (aggregate traceC3).2).map Cand.score = [2, 2] ∧
    findBestArray (aggregate traceC3).2 = some "a" ∧
    (detectVizType traceC3).primaryVar = some "a" ∧
    (detectVizType traceC3).primaryVar ≠ some "b" := by decide

/-- C3 (amended): on score ties the candidate seen FIRST in the
deterministic iteration order wins — the stable descending sort keeps
equal-score candidates in iteration order, so `findBestArray` returns the
first candidate attaining the maximal score (and that score bounds every
candidate's score). -/
theorem c3_tie_first_seen_wins (varSamples : List (String × Sample)) :
    findBestArray varSamples =
      (firstMaxCand (arrayCandidates varSamples)).map Cand.name ∧
    ∀ c, firstMaxCand (arrayCandidates varSamples) = some c →
      ∀ d ∈ arrayCandidates varSamples, d.score ≤ c.score :=
  ⟨findBestArray_eq_firstMax varSamples,
   fun _ h d hd => firstMaxCand_is_max h d hd⟩

/-- C3 witness: the amended theorem applied to the concrete tied samples
of `traceC3`, with the inner hypothesis discharged at the first maximal
candidate. -/
theorem c3_witness :
    findBestArray (aggregate traceC3).2 =
      (firstMaxCand (arrayCandidates (aggregate traceC3).2)).map Cand.name ∧
    ∀ d ∈ arrayCandidates (aggregate traceC3).2, d.score ≤ (⟨"a", 2⟩ : Cand).score :=
  ⟨(c3_tie_first_seen_wins (aggregate traceC3).2).1,
   (c3_tie_first_seen_wins (aggregate traceC3).2).2 ⟨"a", 2⟩ (by decide)⟩

/-- C4: if some variable's value at some step is a non-array mapping with
≥ 2 entries of which ≥ 60% (i.e. at least 3 of every 5) are sequences, and
no `left/right` or `low/high` name pair coexists with a best numeric
array, then `detectVizType` returns `type = graph`. -/
theorem c4_graph_of_adjacency (trace : List TraceStep)
    (hadj : ∃ st ∈ trace, ∃ p ∈ st.stack, ∃ entries,
      p.2 = Value.obj entries ∧ 2 ≤ entries.length ∧
      3 * entries.length ≤ 5 * entries.countP (fun q => isArrVal q.2))
    (hns : ¬ ((("left" ∈ (aggregate trace).1 ∧ "right" ∈ (aggregate trace).1) ∨
      ("low" ∈ (aggregate trace).1 ∧ "high" ∈ (aggregate trace).1)) ∧
      (findBestArray (aggregate trace).2).isSome = true)) :
    (detectVizType trace).type = VizType.graph := by
  have hpred : ∃ st ∈ trace, ∃ p ∈ st.stack, isAdjacencyList p.2 = true := by
    obtain ⟨st, hst, p, hp, entries, hpe, hlen, hratio⟩ := hadj
    refine ⟨st, hst, p, hp, ?_⟩
    rw [hpe]
    simp only [isAdjacencyList]
    rw [if_neg (by omega)]
    exact decide_eq_true hratio
  obtain ⟨g, hg⟩ := findVariableByPredicate_isSome trace isAdjacencyList hpred
  have hss := searchStage_eq_none_of trace (aggregate trace).1 (aggregate trace).2 hns
  have htr : trace ≠ [] := by
    rcases hpred with ⟨st, hst, -⟩
    intro he; subst he; cases hst
  rcases detectVizType_cases trace with ⟨he, -⟩ | ⟨ctx, hss2, -⟩ | ⟨-, hctx⟩
  · exact absurd he htr
  · rw [hss] at hss2; exact Option.noConfusion hss2
  · rw [hctx]
    simp only [graphStageOnward, hg]

/-- C4 witness: the lone adjacency-list variable of `traceC4` yields
`graph`. -/
theorem c4_witness : (detectVizType traceC4).type = VizType.graph :=
  c4_graph_of_adjacency traceC4
    ⟨mkStep [("graph", Value.obj adjEntriesC4)], List.Mem.head _,
      ("graph", Value.obj adjEntriesC4), List.Mem.head _,
      adjEntriesC4, rfl, by decide, by decide⟩
    (by decide)

/-- C5: every name in the returned `pointerVars` is observed as an integer
within `[0, length of primaryVar's longest observed value)` in at least
half of the steps where it is defined. -/
theorem c5_pointerVars_in_range_half (trace : List TraceStep) (name : String)
    (h : name ∈ (detectVizType trace).pointerVars) :
    ∃ p, (detectVizType trace).primaryVar = some p ∧
      0 < seenCount trace name ∧
      (1 : Rat) / 2 ≤
        (intInRangeCount trace name (maxObservedLen trace p) : Rat) /
          (seenCount trace name : Rat) := by
  rcases detectVizType_cases trace with ⟨-, hctx⟩ | ⟨ctx, hss, hctx⟩ | ⟨-, hctx⟩
  · rw [hctx] at h; simp [emptyCtx] at h
  · rcases searchStage_inv _ _ _ _ hss with ⟨a, -, hctxeq⟩
    rw [hctx, hctxeq] at h
    simp at h
  · rw [hctx] at h ⊢
    rcases graphStageOnward_cases trace (aggregate trace).1 (aggregate trace).2 with
      ⟨g, -, heq⟩ | ⟨v, -, -, heq⟩ | ⟨g, -, heq⟩ | ⟨a, hfb, heq⟩ | ⟨a, -, heq⟩ | heq | heq
    · rw [heq] at h; simp at h
    · rw [heq] at h; simp at h
    · rw [heq] at h; simp at h
    · rw [heq] at h ⊢
      have hm := mem_findPointerVars _ _ _ _ h
      refine ⟨a, rfl, hm.2.2.1, ?_⟩
      have hlen : sampleLenD (aggregate trace).2 a = maxObservedLen trace a :=
        sampleLenD_eq_maxObservedLen trace a (findBestArray_lookup_isSome _ a hfb)
      rw [← hlen]
      exact (ratio_ge_half_iff _ _ hm.2.2.1).mpr hm.2.2.2
    · rw [heq] at h; simp at h
    · rw [heq] at h; simp at h
    · rw [heq] at h; simp [emptyCtx] at h

/-- C5 witness: in `traceC9` the pointer variable `v` is in range at least
half of the time it is defined. -/
theorem c5_witness :
    ∃ p, (detectVizType traceC9).primaryVar = some p ∧
      0 < seenCount traceC9 "v" ∧
      (1 : Rat) / 2 ≤
        (intInRangeCount traceC9 "v" (maxObservedLen traceC9 p) : Rat) /
          (seenCount traceC9 "v" : Rat) :=
  c5_pointerVars_in_range_half traceC9 "v" (by decide)

/-- C6: for every trace the returned `scalarVars` has length at most 5 and
never contains the name returned as `primaryVar` (in every one of the
result shapes; in the none-with-dicts shape `primaryVar` is absent, so the
exclusion holds vacuously). -/
theorem c6_scalarVars_bounded_and_no_primary (trace : List TraceStep) :
    (detectVizType trace).scalarVars.length ≤ 5 ∧
    ∀ p, (detectVizType trace).primaryVar = some p →
      p ∉ (detectVizType trace).scalarVars := by
  rcases detectVizType_cases trace with ⟨-, hctx⟩ | ⟨ctx, hss, hctx⟩ | ⟨-, hctx⟩
  · rw [hctx]
    exact ⟨by simp [emptyCtx], fun p hp => by simp [emptyCtx] at hp⟩
  · rcases searchStage_inv _ _ _ _ hss with ⟨a, -, hctxeq⟩
    rw [hctx, hctxeq]
    refine ⟨findScalarVars_length_le _ _ _, ?_⟩
    intro p hp
    have hp2 : some a = some p := hp
    injection hp2 with hpa
    subst hpa
    exact not_mem_findScalarVars_of_mem_exclude _ _ _ _ (List.mem_singleton_self _)
  · rw [hctx]
    rcases graphStageOnward_cases trace (aggregate trace).1 (aggregate trace).2 with
      ⟨g, -, heq⟩ | ⟨v, -, -, heq⟩ | ⟨g, -, heq⟩ | ⟨a, -, heq⟩ | ⟨a, -, heq⟩ | heq | heq
    · rw [heq]
      exact ⟨by simp, fun p hp => by simp⟩
    · rw [heq]
      refine ⟨findScalarVars_length_le _ _ _, ?_⟩
      intro p hp
      have hp2 : some v = some p := hp
      injection hp2 with hpv
      subst hpv
      exact not_mem_findScalarVars_of_mem_exclude _ _ _ _ (List.mem_singleton_self _)
    · rw [heq]
      exact ⟨by simp, fun p hp => by simp⟩
    · rw [heq]
      refine ⟨findScalarVars_length_le _ _ _, ?_⟩
      intro p hp
      have hp2 : some a = some p := hp
      injection hp2 with hpa
      subst hpa
      exact not_mem_findScalarVars_of_mem_exclude _ _ _ _ (List.mem_singleton_self _)
    · rw [heq]
      refine ⟨findScalarVars_length_le _ _ _, ?_⟩
      intro p hp
      have hp2 : some a = some p := hp
      injection hp2 with hpa
      subst hpa
      exact not_mem_findScalarVars_of_mem_exclude _ _ _ _ (List.mem_singleton_self _)
    · rw [heq]
      refine ⟨findScalarVars_length_le _ _ _, ?_⟩
      intro p hp
      have hp2 : (Option.none : Option String) = some p := hp
      exact Option.noConfusion hp2
    · rw [heq]
      exact ⟨by simp [emptyCtx], fun p hp => by simp [emptyCtx] at hp⟩

/-- C6 witness: in `traceW6` the primary variable `nums` is not among the
scalar variables, whose count is at most 5. -/
theorem c6_witness :
    (detectVizType traceW6).scalarVars.length ≤ 5 ∧
    "nums" ∉ (detectVizType traceW6).scalarVars :=
  ⟨(c6_scalarVars_bounded_and_no_primary traceW6).1,
   (c6_scalarVars_bounded_and_no_primary traceW6).2 "nums" (by decide)⟩

/-- C9: the pointer-variable computation does not exclude the primary
variable — there is a trace classified `array` whose `primaryVar` also
appears in `pointerVars` (hence in `auxVars`): `v`'s longest observed
value is a numeric array of length 2, and `v` is an in-range integer in
two of its three defined steps. -/
theorem c9_primary_can_be_pointer :
    ∃ (trace : List TraceStep) (v : String),
      (detectVizType trace).type = VizType.array ∧
      (detectVizType trace).primaryVar = some v ∧
      v ∈ (detectVizType trace).pointerVars ∧
      v ∈ (detectVizType trace).auxVars :=
  ⟨traceC9, "v", by decide⟩

/-- C10: `pointerVars` never contains a name from the fixed
auxiliary-name set `AUX_NAMES` (stack, queue, visited, path, result,
seen, temp, output, ans, res, memo, cache, dp, parent, prev, next,
current, node) — such names are skipped by pointer detection regardless
of their observed values. -/
theorem c10_pointerVars_disjoint_aux (trace : List TraceStep) (name : String)
    (h : name ∈ (detectVizType trace).pointerVars) : name ∉ AUX_NAMES := by
  rcases detectVizType_cases trace with ⟨-, hctx⟩ | ⟨ctx, hss, hctx⟩ | ⟨-, hctx⟩
  · rw [hctx] at h; simp [emptyCtx] at h
  · rcases searchStage_inv _ _ _ _ hss with ⟨a, -, hctxeq⟩
    rw [hctx, hctxeq] at h
    simp at h
  · rw [hctx] at h
    rcases graphStageOnward_cases trace (aggregate trace).1 (aggregate trace).2 with
      ⟨g, -, heq⟩ | ⟨v, -, -, heq⟩ | ⟨g, -, heq⟩ | ⟨a, -, heq⟩ | ⟨a, -, heq⟩ | heq | heq
    · rw [heq] at h; simp at h
    · rw [heq] at h; simp at h
    · rw [heq] at h; simp at h
    · rw [heq] at h
      have hm := mem_findPointerVars _ _ _ _ h
      intro hmem
      rw [contains_of_mem hmem] at hm
      exact Bool.noConfusion hm.2.1
    · rw [heq] at h; simp at h
    · rw [heq] at h; simp at h
    · rw [heq] at h; simp [emptyCtx] at h

/-- C10 witness: the pointer variable `v` of `traceC9` is not an auxiliary
name. -/
theorem c10_witness : "v" ∉ AUX_NAMES :=
  c10_pointerVars_disjoint_aux traceC9 "v" (by decide)

/-- C7, counterexample: the sentinel-prefixed record of `blobC7` has
`line: 0`, which is not a positive integer, yet it passes validation and
is NOT dropped — ingestion yields exactly one step, whose `line` is 0,
violating `line >= 1`. -/
theorem c7_counterexample :
    (parseTrace blobC7).map TraceStep.line = [0] ∧
    ¬ (∀ s ∈ parseTrace blobC7, 1 ≤ s.line) := by decide

/-- C7 (amended): validation constrains `line` only to be a number
(`z.number()` carries no positivity or integrality check): every validated
step's `line` equals the numeric `line` field of its record, whatever
number that is, and a record whose `line` field is missing or not a number
fails validation and is silently dropped (contrapositive of this
inversion). -/
theorem c7_validated_line_is_number (v : Value) (s : TraceStep)
    (h : validateStep v = some s) :
    ∃ fields q, v = Value.obj fields ∧
      assocLookup "line" fields = some (Value.num q) ∧ s.line = q := by
  unfold validateStep at h
  repeat' split at h
  all_goals try exact Option.noConfusion h
  injection h with h2
  subst h2
  exact ⟨_, _, rfl, by assumption, rfl⟩

/-- C7 witness: the amended theorem applied to a concrete record whose
`line` is the (non-positive) number 0. -/
theorem c7_witness :
    ∃ fields q, goodLineJson = Value.obj fields ∧
      assocLookup "line" fields = some (Value.num q) ∧
      (TraceStep.mk 0 [] [] "").line = q :=
  c7_validated_line_is_number goodLineJson ⟨0, [], [], ""⟩ rfl

/-- C8: `parseTrace` returns exactly the steps of the well-formed
sentinel-prefixed records of the blob (those that parse as JSON and
validate against the `TraceStep` shape), in their original relative order
— as many steps as there are well-formed lines, none from the malformed
or unrelated lines. -/
theorem c8_roundtrip (stdout : String) :
    parseTrace stdout = (splitLines stdout.data).filterMap parseLine ∧
    (parseTrace stdout).length =
      ((splitLines stdout.data).filter wellFormedLine).length := by
  have hfold : ∀ (lines : List (List Char)) (acc : List TraceStep),
      lines.foldl pushStep acc = acc ++ lines.filterMap parseLine := by
    intro lines
    induction lines with
    | nil => intro acc; simp
    | cons x xs ih =>
      intro acc
      cases hx : parseLine x <;>
        simp [List.foldl_cons, List.filterMap_cons, pushStep, hx, ih]
  have h1 : parseTrace stdout = (splitLines stdout.data).filterMap parseLine := by
    unfold parseTrace
    simpa using hfold (splitLines stdout.data) []
  refine ⟨h1, ?_⟩
  rw [h1, length_filterMap_eq]
  rfl

end DryRun
